import Mathlib

/-!
Verification development for the ComfyManage workflow-resource pipeline.

The definitions below are a shallow embedding of the TypeScript sources:
  * the workflow scanner `parseWorkflowData` (services/comfyParser.ts),
  * the enrichment resolver `analyzeResourcesWithGemini` (services/geminiService.ts),
  * the URL validator `isDirectDownloadUrl` and the installer-script
    synthesizer `generateScript` (components/ScriptPreview.tsx),
  * the history operation `addToHistory` (App.tsx).

Modelling conventions, applied throughout:
  * JSON.parse is modelled by an `Option JVal` input: `none` is an input that
    is not well-formed JSON; `some j` is the parsed value.
  * JavaScript runtime exceptions of the scanner (property access on null,
    calling startsWith on a non-string) are the `typeError` outcome of
    `Except`; the explicit `throw new Error("Invalid JSON format")` is
    `parseError`.
  * `crypto.randomUUID()` is modelled as a deterministic fresh-id supply:
    the scanner numbers items 0, 1, 2, ... in insertion order, and the
    resolver takes an explicit supply function for ids of unmatched guesses.
    Ids are `Nat` instead of UUID strings; they are opaque identifiers.
  * JavaScript string length is UTF-16 units; `String.length` (characters)
    agrees with it on all strings the claims exercise.
  * A falsy field of the loosely typed enrichment response (absent or empty)
    is modelled with `Option` for the enum-valued field and with the empty
    string for the string-valued field.
-/

/-- Resource categories, from the `ResourceType` enum in types.ts. -/
inductive ResourceType where
  | CHECKPOINT
  | LORA
  | VAE
  | EMBEDDING
  | CONTROLNET
  | UPSCALER
  | CUSTOM_NODE
  | UNKNOWN
deriving DecidableEq

/-- The string value of each enum member, as interpolated into templates. -/
def resourceTypeStr : ResourceType → String
  | .CHECKPOINT => "CHECKPOINT"
  | .LORA => "LORA"
  | .VAE => "VAE"
  | .EMBEDDING => "EMBEDDING"
  | .CONTROLNET => "CONTROLNET"
  | .UPSCALER => "UPSCALER"
  | .CUSTOM_NODE => "CUSTOM_NODE"
  | .UNKNOWN => "UNKNOWN"

/-- The computeType field: GPU for model weights, CPU for node code. -/
inductive ComputeType where
  | GPU
  | CPU
deriving DecidableEq

/-- A raw resource reference discovered in a workflow (types.ts). -/
structure ScannedItem where
  id : Nat
  rawName : String
  isNode : Bool
deriving DecidableEq

/-- A scanned item enriched with classification and source data (types.ts).
`confidence` is a rational in place of the JS number. -/
structure EnrichedResource extends ScannedItem where
  name : String
  type : ResourceType
  description : String
  targetPath : String
  downloadUrl : String
  confidence : ℚ
  computeType : ComputeType
  fileSize : String
deriving DecidableEq

/-- A history entry: an enriched resource plus the commit timestamp. -/
structure HistoryItem extends EnrichedResource where
  dateAdded : String
deriving DecidableEq

/-- One parsed element of the enrichment response for a batch.  The response
schema requires rawName, name, type, targetPath, downloadUrl, computeType and
fileSize; the merge code defends against falsy computeType and fileSize with
defaults, so `computeType` is an `Option` (none = absent) and an empty
`fileSize` stands for a falsy one. -/
structure GeminiGuess where
  rawName : String
  name : String
  type : ResourceType
  targetPath : String
  downloadUrl : String
  computeType : Option ComputeType
  fileSize : String
  description : String
deriving DecidableEq

/-- Result of the URL validator (ScriptPreview.tsx). -/
structure UrlValidation where
  isValid : Bool
  reason : Option String
deriving DecidableEq

/-- Errors the scanner can surface: `parseError` is the explicit
`Error("Invalid JSON format")`; `typeError` is a JS runtime TypeError raised
while traversing the parsed value. -/
inductive ScanErr where
  | parseError
  | typeError
deriving DecidableEq

/-- Parsed JSON values.  Numbers are integers; the scanner never inspects a
numeric value beyond truthiness, and truthiness of a fractional number agrees
with that of any nonzero integer. -/
inductive JVal where
  | jnull
  | jbool (b : Bool)
  | jnum (n : Int)
  | jstr (s : String)
  | jarr (elems : List JVal)
  | jobj (fields : List (String × JVal))

/-- JS property access `v.k` for a non-null base: a field of an object,
undefined (`none`) for everything else.  Access on null throws; callers
handle that case explicitly. -/
def JVal.getField : JVal → String → Option JVal
  | .jobj fields, k => (fields.find? (fun p => p.1 == k)).map (fun p => p.2)
  | _, _ => none

/-- JS truthiness of a JSON value. -/
def JVal.truthy : JVal → Bool
  | .jnull => false
  | .jbool b => b
  | .jnum n => n != 0
  | .jstr s => s != ""
  | .jarr _ => true
  | .jobj _ => true

/-- JS `for (const key in v)` enumeration with element lookup: object fields
in order, array elements keyed by index, characters of a string keyed by
index, nothing for primitives. -/
def JVal.enumPairs : JVal → List (String × JVal)
  | .jobj fields => fields
  | .jarr l => l.enum.map (fun p => (toString p.1, p.2))
  | .jstr s => s.toList.enum.map (fun p => (toString p.1, JVal.jstr (String.singleton p.2)))
  | _ => []

/-! ## Character-list string primitives

The JS string operations are modelled on character lists so that every
definition evaluates by kernel reduction.  They agree with the standard
library string functions on the ASCII strings this development handles. -/

/-- JS `s.toLowerCase()`. -/
def jsToLower (s : String) : String := String.mk (s.toList.map Char.toLower)

/-- JS `s.startsWith(pre)`. -/
def jsStarts (s pre : String) : Bool := pre.toList.isPrefixOf s.toList

/-- JS `s.endsWith(suf)`. -/
def jsEnds (s suf : String) : Bool := suf.toList.isSuffixOf s.toList

/-- JS `s.trim()` (ASCII whitespace). -/
def jsTrim (s : String) : String :=
  String.mk (((s.toList.dropWhile Char.isWhitespace).reverse.dropWhile Char.isWhitespace).reverse)

/-- JS `s.split(sep)` for a single-character separator. -/
def splitOnChar (sep : Char) : List Char → List (List Char)
  | [] => [[]]
  | c :: rest =>
    match splitOnChar sep rest with
    | [] => [[c]]
    | h :: t => if c = sep then [] :: h :: t else (c :: h) :: t

/-! ## Workflow scanner (services/comfyParser.ts) -/

/-- Counts occurrences (possibly overlapping) of `pat` in `l`. -/
def countOcc : List Char → List Char → Nat
  | [], _ => 0
  | c :: rest, pat => (if pat.isPrefixOf (c :: rest) then 1 else 0) + countOcc rest pat

/-- JS `s.includes(pat)` for a nonempty pattern. -/
def strContains (s pat : String) : Bool := 0 < countOcc s.toList pat.toList

/-- Smallest index at which `pat` occurs in `l`, if any. -/
def firstOcc (l pat : List Char) : Option Nat :=
  (List.range (l.length + 1)).find? (fun i => pat.isPrefixOf (l.drop i))

/-- Index of the last slash in `l`, if any. -/
def lastSlash (l : List Char) : Option Nat :=
  match l.reverse.findIdx? (fun c => c == '/') with
  | none => none
  | some j => some (l.length - 1 - j)

/-- The hardcoded subset of standard node types excluded from extraction. -/
def CORE_NODES : List String :=
  ["KSampler", "CheckpointLoaderSimple", "CLIPTextEncode", "VAEDecode",
   "EmptyLatentImage", "SaveImage", "PreviewImage", "LoadImage", "Note",
   "PrimitiveNode", "Reroute", "LoraLoader", "VAELoader", "ControlNetLoader",
   "UpscaleModelLoader", "Group"]

/-- `isCoreNode` on a string: denylist membership or the loose
`startsWith("ComfyUI")` heuristic. -/
def isCoreNode (t : String) : Bool := CORE_NODES.contains t || jsStarts t "ComfyUI"

/-- `isCoreNode(type)` as called from the scanner: `type.startsWith` throws a
TypeError when the (truthy) value is not a string. -/
def isCoreNodeJS : JVal → Except ScanErr Bool
  | .jstr s => .ok (isCoreNode s)
  | _ => .error .typeError

/-- Scanner state: items collected so far (insertion order, as in the JS Map)
and the next fresh id. -/
abbrev ScanState := List ScannedItem × Nat

/-- The `addItem` closure: skip falsy or non-string names, trim, and insert
only if no item with the same trimmed rawName is present. -/
def addItem (st : ScanState) (nameV : JVal) (isNode : Bool) : ScanState :=
  match nameV with
  | .jstr s =>
    if s = "" then st
    else
      let cleanName := jsTrim s
      if st.1.any (fun it => it.rawName == cleanName) then st
      else (st.1 ++ [⟨st.2, cleanName, isNode⟩], st.2 + 1)
  | _ => st

/-- The keys of `inputs` treated as file parameters. -/
def fileKeys : List String :=
  ["ckpt_name", "lora_name", "vae_name", "control_net_name",
   "upscale_model_name", "model_name", "embedding", "image"]

/-- Extensions checked on input values (lowercased) in execution form. -/
def hasModelExt (lowerVal : String) : Bool :=
  jsEnds lowerVal ".safetensors" || jsEnds lowerVal ".ckpt" ||
  jsEnds lowerVal ".pt" || jsEnds lowerVal ".pth"

/-- One key/value pair of an `inputs` mapping: a string value is added when
its key is a known file key or its lowercased value has a model extension. -/
def processInputVal (st : ScanState) (p : String × JVal) : ScanState :=
  match p.2 with
  | .jstr v =>
    if fileKeys.contains p.1 || hasModelExt (jsToLower v) then addItem st (.jstr v) false
    else st
  | _ => st

/-- `processInputs`: skip falsy inputs, otherwise fold over the enumerated
key/value pairs. -/
def processInputs (inputs : JVal) (st : ScanState) : ScanState :=
  if inputs.truthy then inputs.enumPairs.foldl processInputVal st else st

/-- Processing of one truthy `type` / `class_type` value: consult the core
denylist (which may throw on a non-string) and add survivors as node items. -/
def scanNodeType (st : ScanState) (t : JVal) : Except ScanErr ScanState :=
  if t.truthy then
    match isCoreNodeJS t with
    | .error e => .error e
    | .ok core => .ok (if core then st else addItem st t true)
  else .ok st

/-- One widget-literal value in graph form: only strings whose lowercase form
ends in .safetensors or .ckpt are added. -/
def scanWidgetVal (st : ScanState) (v : JVal) : ScanState :=
  match v with
  | .jstr s =>
    if jsEnds (jsToLower s) ".safetensors" || jsEnds (jsToLower s) ".ckpt" then
      addItem st (.jstr s) false
    else st
  | _ => st

/-- The body of graph-node processing for a non-null node: the type field is
processed first, then widgets_values when it is an array. -/
def scanGraphNodeBody (st : ScanState) (node : JVal) : Except ScanErr ScanState :=
  (match node.getField "type" with
   | some t => scanNodeType st t
   | none => .ok st).map (fun st1 =>
    match node.getField "widgets_values" with
    | some (.jarr vals) => vals.foldl scanWidgetVal st1
    | _ => st1)

/-- One node record of the graph (Saved) form.  Property access on a null
element throws. -/
def scanGraphNode (st : ScanState) (node : JVal) : Except ScanErr ScanState :=
  match node with
  | .jnull => .error .typeError
  | _ => scanGraphNodeBody st node

/-- The body of execution-node processing for a non-null node: class_type,
then truthy inputs. -/
def scanExecNodeBody (st : ScanState) (node : JVal) : Except ScanErr ScanState :=
  (match node.getField "class_type" with
   | some t => scanNodeType st t
   | none => .ok st).map (fun st1 =>
    match node.getField "inputs" with
    | some inp => if inp.truthy then processInputs inp st1 else st1
    | none => st1)

/-- One node record of the execution (API) form.  Property access on a null
value throws. -/
def scanExecNode (st : ScanState) (node : JVal) : Except ScanErr ScanState :=
  match node with
  | .jnull => .error .typeError
  | _ => scanExecNodeBody st node

/-- `parseWorkflowData`: reject unparsable text, detect the graph form by a
top-level `nodes` array, and fall back to the execution form otherwise.
`data.nodes` on a null document throws a TypeError. -/
def parseWorkflowData (doc : Option JVal) : Except ScanErr (List ScannedItem) :=
  match doc with
  | none => .error .parseError
  | some .jnull => .error .typeError
  | some data =>
    match data.getField "nodes" with
    | some (.jarr nodes) => (nodes.foldlM scanGraphNode ([], 0)).map (fun st => st.1)
    | _ => (data.enumPairs.foldlM (fun st p => scanExecNode st p.2) ([], 0)).map (fun st => st.1)

/-! ## Resource resolver (services/geminiService.ts) -/

/-- Default computeType applied when the response omits it: CPU for custom
nodes, GPU otherwise. -/
def defaultComputeType (t : ResourceType) : ComputeType :=
  if t = .CUSTOM_NODE then .CPU else .GPU

/-- The merge of one response element with the chunk of scanned items it came
from: find the first scanned item with the same rawName; take id and isNode
from it when found, a fresh id and isNode=false otherwise; every other field
comes from the response, with defaults for falsy computeType and fileSize and
a fixed confidence of 0.9. -/
def mergeGuess (chunk : List ScannedItem) (fresh : Nat) (g : GeminiGuess) : EnrichedResource :=
  let original := chunk.find? (fun c => c.rawName == g.rawName)
  { id := match original with
      | some o => o.id
      | none => fresh
    rawName := g.rawName
    isNode := match original with
      | some o => o.isNode
      | none => false
    name := g.name
    type := g.type
    description := g.description
    targetPath := g.targetPath
    downloadUrl := g.downloadUrl
    computeType := match g.computeType with
      | some ct => ct
      | none => defaultComputeType g.type
    fileSize := if g.fileSize = "" then "N/A" else g.fileSize
    confidence := 9 / 10 }

/-- The map over the response elements, carrying the element index for the
fresh-id supply. -/
def mergeChunkAux (chunk : List ScannedItem) (uuid : Nat → Nat) (i : Nat) : List GeminiGuess → List EnrichedResource
  | [] => []
  | g :: gs => mergeGuess chunk (uuid i) g :: mergeChunkAux chunk uuid (i + 1) gs

/-- `jsonResponse.map(...)` over one batch: one output resource per response
element, in response order; `uuid` supplies the fresh id for the element at
each index. -/
def mergeChunk (chunk : List ScannedItem) (guesses : List GeminiGuess) (uuid : Nat → Nat) : List EnrichedResource :=
  mergeChunkAux chunk uuid 0 guesses

/-- Outcome of the external call for one batch: the promise rejects
(`callFailed`), the response has no text (`noText`), or it has text whose
JSON.parse result is `some` guesses or `none` when unparsable. -/
inductive BatchOutcome where
  | callFailed
  | noText
  | text (parsed : Option (List GeminiGuess))
deriving DecidableEq

/-- Splits the scanned items into slices of BATCH_SIZE = 20, recursing on
fuel equal to the list length (each step consumes at least one element). -/
def chunkListAux : Nat → List ScannedItem → List (List ScannedItem)
  | 0, _ => []
  | _, [] => []
  | fuel + 1, a :: as => (a :: as).take 20 :: chunkListAux fuel ((a :: as).drop 20)

/-- The chunking loop of `analyzeResourcesWithGemini`. -/
def chunkList (items : List ScannedItem) : List (List ScannedItem) :=
  chunkListAux items.length items

/-- The per-chunk loop: a rejected call propagates as the error of the whole
resolution; a missing-text response is skipped; an unparsable response is
caught and skipped; a parsed response is merged and concatenated in batch
order.  `uuid b i` is the fresh id for response index `i` of batch `b`. -/
def resolveChunks (uuid : Nat → Nat → Nat) : List (List ScannedItem) → (Nat → BatchOutcome) → Except Unit (List EnrichedResource)
  | [], _ => .ok []
  | c :: cs, out =>
    match out 0 with
    | .callFailed => .error ()
    | .noText => resolveChunks (fun b => uuid (b + 1)) cs (fun n => out (n + 1))
    | .text none => resolveChunks (fun b => uuid (b + 1)) cs (fun n => out (n + 1))
    | .text (some gs) =>
      (resolveChunks (fun b => uuid (b + 1)) cs (fun n => out (n + 1))).map
        (fun rest => mergeChunk c gs (uuid 0) ++ rest)

/-- `analyzeResourcesWithGemini`, with the external service abstracted as the
per-batch outcome function `out`. -/
def analyzeResourcesWithGemini (items : List ScannedItem) (out : Nat → BatchOutcome) (uuid : Nat → Nat → Nat) : Except Unit (List EnrichedResource) :=
  resolveChunks uuid (chunkList items) out

/-- What one batch contributes to the final list when resolution does not
abort: the merged response for a parsed batch, nothing otherwise. -/
def chunkContrib (uuid : Nat → Nat) (c : List ScannedItem) (o : BatchOutcome) : List EnrichedResource :=
  match o with
  | .text (some gs) => mergeChunk c gs uuid
  | _ => []

/-- Concatenation, in batch order, of the per-batch contributions. -/
def contribs (uuid : Nat → Nat → Nat) : List (List ScannedItem) → (Nat → BatchOutcome) → List EnrichedResource
  | [], _ => []
  | c :: cs, out =>
    chunkContrib (uuid 0) c (out 0) ++ contribs (fun b => uuid (b + 1)) cs (fun n => out (n + 1))

/-! ## URL validation (components/ScriptPreview.tsx, isDirectDownloadUrl) -/

/-- The recognized model-hosting domains. -/
def commonModelHosts : List String := ["civitai.com", "huggingface.co", "files.catbox.moe"]

/-- The model-file-extension test applied to the lowercased URL, from the
regex over safetensors, ckpt, pt, pth and bin anchored at the end. -/
def modelExtTest (lowerUrl : String) : Bool :=
  jsEnds lowerUrl ".safetensors" || jsEnds lowerUrl ".ckpt" ||
  jsEnds lowerUrl ".pt" || jsEnds lowerUrl ".pth" || jsEnds lowerUrl ".bin"

/-- The ordered first-match-wins rule chain of `isDirectDownloadUrl`. -/
def isDirectDownloadUrl (url : String) (type : ResourceType) : UrlValidation :=
  if url.length < 5 then
    ⟨false, some "URL is empty or too short."⟩
  else
    let lowerUrl := jsToLower url
    if jsStarts lowerUrl "search:" then
      ⟨false, some "This is a search query, not a direct download link."⟩
    else if jsStarts lowerUrl "page:" then
      ⟨false, some "This is a general page, not a direct download link."⟩
    else if !(jsStarts lowerUrl "http://" || jsStarts lowerUrl "https://") then
      if type = .CUSTOM_NODE && jsStarts lowerUrl "git@" && strContains lowerUrl "github.com" then
        ⟨true, none⟩
      else
        ⟨false, some "URL does not start with http(s):// or is not a recognized GitHub SSH URL."⟩
    else if type = .CUSTOM_NODE then
      if !strContains lowerUrl "github.com" then
        ⟨false, some "Custom Node URL should be a GitHub repository."⟩
      else ⟨true, none⟩
    else
      if !(commonModelHosts.any (fun host => strContains lowerUrl host)) && !modelExtTest lowerUrl then
        ⟨false, some "Model URL might not be a direct download or recognized hosting platform."⟩
      else ⟨true, none⟩

/-! ## Download history (App.tsx, addToHistory) -/

/-- `addToHistory`: stamp every committed resource with the timestamp, drop
new items whose downloadUrl is falsy or already present in the existing
history (the set of existing URLs is computed once, from the prior history
only), and prepend the survivors. -/
def addToHistory (prev : List HistoryItem) (resources : List EnrichedResource) (timestamp : String) : List HistoryItem :=
  let newItems : List HistoryItem :=
    resources.map (fun r => { toEnrichedResource := r, dateAdded := timestamp })
  let filteredNew :=
    newItems.filter (fun i =>
      i.downloadUrl != "" && !(prev.any (fun h => h.downloadUrl == i.downloadUrl)))
  filteredNew ++ prev

/-! ## Repository folder name extraction (components/ScriptPreview.tsx) -/

/-- Shared tail of the two repository regexes: working on the URL with a
trailing `.git` stripped case-insensitively (the optional group of the
pattern), the capture is the segment after the last slash, which must start
at or after `markerEnd`, be nonempty and contain neither a dot nor a slash.
This models the backtracking behaviour of the anchored lazy patterns. -/
def repoCapture (url : String) (markerEnd : Nat) : Option String :=
  let cs := url.toList
  let work := if jsEnds (jsToLower url) ".git" then cs.take (cs.length - 4) else cs
  match lastSlash work with
  | none => none
  | some k =>
    if markerEnd ≤ k then
      let cap := work.drop (k + 1)
      if cap ≠ [] ∧ cap.all (fun ch => ch != '.' && ch != '/') then some (String.mk cap)
      else none
    else none

/-- The SSH pattern over `git@github.com:`, matched case-insensitively at its
first occurrence. -/
def sshRepoMatch (url : String) : Option String :=
  match firstOcc (url.toList.map Char.toLower) "git@github.com:".toList with
  | none => none
  | some i => repoCapture url (i + "git@github.com:".length)

/-- The HTTPS pattern over `https?://(www.)?github.com/`: the earliest end
position over the four concrete marker spellings (at any given start at most
one spelling matches, so this is the leftmost regex match). -/
def httpsRepoMatch (url : String) : Option String :=
  let lower := url.toList.map Char.toLower
  let ends :=
    (["http://github.com/", "https://github.com/",
      "http://www.github.com/", "https://www.github.com/"].filterMap
      (fun m => (firstOcc lower m.toList).map (fun i => i + m.length)))
  match ends.foldl (fun acc e => match acc with
      | none => some e
      | some a => some (min a e)) none with
  | none => none
  | some markerEnd => repoCapture url markerEnd

/-- Models `new URL(url).pathname` for http(s) URLs: the part of the string
after the authority, up to a query or fragment, or "/" when the authority is
not followed by a slash.  Inputs without an http(s) scheme are modelled as a
parse failure, which the source catches. -/
def urlPathname (url : String) : Option String :=
  let lower := jsToLower url
  let afterScheme : Option (List Char) :=
    if jsStarts lower "https://" then some (url.toList.drop 8)
    else if jsStarts lower "http://" then some (url.toList.drop 7)
    else none
  match afterScheme with
  | none => none
  | some rest =>
    if rest = [] then none
    else
      let pre := rest.takeWhile (fun c => c != '?' && c != '#')
      match firstOcc pre ['/'] with
      | none => some "/"
      | some j => some (String.mk (pre.drop j))

/-- `getRepoFolderName`: SSH regex, then HTTPS regex, then the URL-object
fallback on the last nonempty pathname segment, then the plain split
fallback; a trailing `.git` is stripped in the fallbacks and an empty result
becomes `unknown_node`. -/
def getRepoFolderName (url : String) : String :=
  match sshRepoMatch url with
  | some repo => repo
  | none =>
    match httpsRepoMatch url with
    | some repo => repo
    | none =>
      match urlPathname url with
      | some path =>
        let pathSegments := (splitOnChar '/' path.toList).filter (fun p => p.length > 0)
        match pathSegments.getLast? with
        | none => "unknown_node"
        | some seg0 =>
          let seg := String.mk seg0
          let repoName := if jsEnds seg ".git" then String.mk (seg0.take (seg0.length - 4)) else seg
          if repoName = "" then "unknown_node" else repoName
      | none =>
        let segments := splitOnChar '/' url.toList
        let seg0 := (segments.getLast?).getD []
        let seg := String.mk seg0
        let lastSegment := if jsEnds seg ".git" then String.mk (seg0.take (seg0.length - 4)) else seg
        if lastSegment = "" then "unknown_node" else lastSegment

/-! ## Installer script synthesis (components/ScriptPreview.tsx, generateScript)

In the emitted text below, `\x27` is an apostrophe and `\x7b`/`\x7d` are
literal braces, written with escapes throughout. -/

/-- Dialect selector, from the `format` state: bash (.sh) or batch (.bat). -/
inductive ScriptFormat where
  | bash
  | bat
deriving DecidableEq

/-- Fixed bash preamble, up to and including the first echo. -/
def bashHeader (timestamp : String) : String :=
  "#!/bin/bash\n# ComfyUI Resource Installer - Generated on " ++ timestamp ++ "\n"
  ++ "# NOTE: Run this script from your \x27ComfyUI\x27 root folder.\n"
  ++ "# Assumes \x27python\x27 and \x27pip\x27 are in your PATH (active venv).\n\n"
  ++ "echo \"Starting ComfyUI Resource Download...\"\n\n"

/-- Fixed bash closing lines. -/
def bashTrailer : String :=
  "echo \"----------------------------------------------------------------\"\n"
  ++ "echo \"All done! Please restart ComfyUI.\""

/-- The bash block for a custom-node resource.  Note the stray closing brace
after the submodule warning, transcribed verbatim from the source. -/
def bashCustomNodeBlock (r : EnrichedResource) : String :=
  let repoDir := getRepoFolderName r.downloadUrl
  "echo \"Processing Custom Node: " ++ r.name ++ "...\"\n"
  ++ "mkdir -p \"custom_nodes\"\n"
  ++ "cd \"custom_nodes\"\n"
  ++ "if [ ! -d \"" ++ repoDir ++ "\" ]; then\n"
  ++ "  echo \"  Cloning repo \x27" ++ r.downloadUrl ++ "\x27...\"\n"
  ++ "  git clone \"" ++ r.downloadUrl ++ "\"\n"
  ++ "  if [ $? -ne 0 ]; then\n"
  ++ "    echo \"  ERROR: Git clone failed for " ++ r.name ++ ". Check URL and internet connection.\"\n"
  ++ "  else\n"
  ++ "    echo \"  Clone successful.\"\n"
  ++ "  fi\n"
  ++ "else\n"
  ++ "  echo \"  Folder \x27" ++ repoDir ++ "\x27 already exists. Skipping clone.\"\n"
  ++ "fi\n"
  ++ "if [ -d \"" ++ repoDir ++ "\" ]; then\n"
  ++ "  cd \"" ++ repoDir ++ "\"\n"
  ++ "  if [ -f \".gitmodules\" ]; then\n"
  ++ "    echo \"  Initializing submodules...\"\n"
  ++ "    git submodule update --init --recursive\n"
  ++ "    if [ $? -ne 0 ]; then\n"
  ++ "      echo \"  WARNING: Submodule update failed for " ++ r.name ++ ".\"\n"
  ++ "    \x7d\n"
  ++ "  fi\n"
  ++ "  if [ -f \"requirements.txt\" ]; then\n"
  ++ "    echo \"  Installing requirements.txt...\"\n"
  ++ "    pip install -r requirements.txt\n"
  ++ "    if [ $? -ne 0 ]; then\n"
  ++ "      echo \"  WARNING: Pip installation failed for " ++ r.name ++ " requirements.\"\n"
  ++ "    fi\n"
  ++ "  fi\n"
  ++ "  if [ -f \"install.py\" ]; then\n"
  ++ "    echo \"  Running install.py...\"\n"
  ++ "    python install.py\n"
  ++ "    if [ $? -ne 0 ]; then\n"
  ++ "      echo \"  WARNING: install.py failed for " ++ r.name ++ ".\"\n"
  ++ "    fi\n"
  ++ "  fi\n"
  ++ "  cd ..\n"
  ++ "fi\n"
  ++ "cd ..\n\n"

/-- The bash block for a model resource. -/
def bashModelBlock (r : EnrichedResource) : String :=
  "echo \"Processing Model: " ++ r.name ++ "...\"\n"
  ++ "mkdir -p \"" ++ r.targetPath ++ "\"\n"
  ++ "if [ ! -f \"" ++ r.targetPath ++ "/" ++ r.rawName ++ "\" ]; then\n"
  ++ "  echo \"  Downloading \x27" ++ r.downloadUrl ++ "\x27 to \x27" ++ r.targetPath ++ "/" ++ r.rawName ++ "\x27...\"\n"
  ++ "  wget -c --show-progress -O \"" ++ r.targetPath ++ "/" ++ r.rawName ++ "\" \"" ++ r.downloadUrl ++ "\"\n"
  ++ "  if [ $? -ne 0 ]; then\n"
  ++ "    echo \"  ERROR: Download failed for " ++ r.name ++ " from " ++ r.downloadUrl ++ "\"\n"
  ++ "    echo \"  Please check the URL and your network connection, or try downloading manually.\"\n"
  ++ "  else\n"
  ++ "    echo \"  Download successful for " ++ r.name ++ ".\"\n"
  ++ "  fi\n"
  ++ "else\n"
  ++ "  echo \"  File \x27" ++ r.rawName ++ "\x27 already exists in \x27" ++ r.targetPath ++ "\x27. Skipping download.\"\n"
  ++ "fi\n\n"

/-- The bash per-resource emission: a resource with a falsy downloadUrl is
skipped; otherwise a comment banner plus the kind-specific block. -/
def bashResourceBlock (r : EnrichedResource) : String :=
  if r.downloadUrl = "" then ""
  else
    "# ----------------------------------------------------------------\n"
    ++ "# [" ++ resourceTypeStr r.type ++ "] " ++ r.name ++ "\n"
    ++ (if r.type = .CUSTOM_NODE then bashCustomNodeBlock r else bashModelBlock r)

/-- Fixed batch preamble including portable-environment detection. -/
def batHeader (timestamp : String) : String :=
  "@echo off\n:: ComfyUI Resource Installer - Generated on " ++ timestamp ++ "\n"
  ++ ":: NOTE: Run this from your \x27ComfyUI\x27 root folder.\n\n"
  ++ ":: --- Environment Setup ---\n"
  ++ "set \"PYTHON_EXE=python\"\n"
  ++ "set \"PIP_EXE=pip\"\n\n"
  ++ "if exist \"..\\python_embeded\\python.exe\" (\n"
  ++ "    echo [INFO] Detected ComfyUI Portable Environment.\n"
  ++ "    set \"PYTHON_EXE=..\\python_embeded\\python.exe\"\n"
  ++ "    set \"PIP_EXE=..\\python_embeded\\python.exe -m pip\"\n"
  ++ ") else (\n"
  ++ "    echo [INFO] Using system Python. Ensure it is in your PATH.\n"
  ++ ")\n\n"
  ++ "echo Starting ComfyUI Resource Download...\n\n"

/-- Fixed batch closing lines, ending in a pause. -/
def batTrailer : String :=
  "echo ----------------------------------------------------------------\n"
  ++ "echo All done! Please restart ComfyUI.\npause"

/-- The batch block for a custom-node resource. -/
def batCustomNodeBlock (r : EnrichedResource) : String :=
  let repoDir := getRepoFolderName r.downloadUrl
  "echo Processing Custom Node: " ++ r.name ++ "...\n"
  ++ "if not exist \"custom_nodes\" mkdir \"custom_nodes\"\n"
  ++ "cd \"custom_nodes\"\n"
  ++ "if not exist \"" ++ repoDir ++ "\" (\n"
  ++ "  echo   Cloning repo \x27" ++ r.downloadUrl ++ "\x27...\n"
  ++ "  git clone \"" ++ r.downloadUrl ++ "\"\n"
  ++ "  if %ERRORLEVEL% NEQ 0 (\n"
  ++ "    echo   ERROR: Git clone failed for " ++ r.name ++ ". Check URL and internet connection.\n"
  ++ "  ) else (\n"
  ++ "    echo   Clone successful.\n"
  ++ "  )\n"
  ++ ") else (\n"
  ++ "  echo   Folder \x27" ++ repoDir ++ "\x27 already exists. Skipping clone.\n"
  ++ ")\n"
  ++ "if exist \"" ++ repoDir ++ "\" (\n"
  ++ "  cd \"" ++ repoDir ++ "\"\n"
  ++ "  if exist \".gitmodules\" (\n"
  ++ "    echo   Initializing submodules...\n"
  ++ "    git submodule update --init --recursive\n"
  ++ "    if %ERRORLEVEL% NEQ 0 (\n"
  ++ "      echo   WARNING: Submodule update failed for " ++ r.name ++ ".\n"
  ++ "    )\n"
  ++ "  )\n"
  ++ "  if exist \"requirements.txt\" (\n"
  ++ "    echo   Installing requirements.txt...\n"
  ++ "    %PIP_EXE% install -r requirements.txt\n"
  ++ "    if %ERRORLEVEL% NEQ 0 (\n"
  ++ "      echo   WARNING: Pip installation failed for " ++ r.name ++ " requirements.\n"
  ++ "    )\n"
  ++ "  )\n"
  ++ "  if exist \"install.py\" (\n"
  ++ "    echo   Running install.py...\n"
  ++ "    %PYTHON_EXE% install.py\n"
  ++ "    if %ERRORLEVEL% NEQ 0 (\n"
  ++ "      echo   WARNING: install.py failed for " ++ r.name ++ ".\n"
  ++ "    )\n"
  ++ "  )\n"
  ++ "  cd ..\n"
  ++ ")\n"
  ++ "cd ..\n\n"

/-- Path separator rewriting for batch model targets. -/
def toWinPath (p : String) : String :=
  String.mk (p.toList.map (fun c => if c = '/' then '\\' else c))

/-- The batch block for a model resource, downloading through powershell. -/
def batModelBlock (r : EnrichedResource) : String :=
  let winPath := toWinPath r.targetPath
  "echo Processing Model: " ++ r.name ++ "...\n"
  ++ "if not exist \"" ++ winPath ++ "\" mkdir \"" ++ winPath ++ "\"\n"
  ++ "if not exist \"" ++ winPath ++ "\\" ++ r.rawName ++ "\" (\n"
  ++ "  echo   Downloading \x27" ++ r.downloadUrl ++ "\x27 to \x27" ++ winPath ++ "\\" ++ r.rawName ++ "\x27...\n"
  ++ "  powershell -Command \"$ProgressPreference = \x27Continue\x27; try \x7b Invoke-WebRequest -Uri \x27" ++ r.downloadUrl ++ "\x27 -OutFile \x27" ++ winPath ++ "\\" ++ r.rawName ++ "\x27 -ErrorAction Stop | Out-Null; Write-Host \x27  Download successful for " ++ r.name ++ ".\x27 \x7d catch \x7b Write-Host \x27  ERROR: Download failed for " ++ r.name ++ " from " ++ r.downloadUrl ++ " - $($_.Exception.Message)\x27; Write-Host \x27  Please check the URL and your network connection, or try downloading manually.\x27 \x7d\" \n"
  ++ ") else (\n"
  ++ "  echo   File \x27" ++ r.rawName ++ "\x27 already exists in \x27" ++ winPath ++ "\x27. Skipping download.\n"
  ++ ")\n\n"

/-- The batch per-resource emission. -/
def batResourceBlock (r : EnrichedResource) : String :=
  if r.downloadUrl = "" then ""
  else
    ":: ----------------------------------------------------------------\n"
    ++ ":: [" ++ resourceTypeStr r.type ++ "] " ++ r.name ++ "\n"
    ++ (if r.type = .CUSTOM_NODE then batCustomNodeBlock r else batModelBlock r)

/-- `generateScript`: the header for the chosen dialect, the per-resource
blocks accumulated over the resource list in order, and the trailer.  The
timestamp is the date part of the current time, passed explicitly. -/
def generateScript (resources : List EnrichedResource) (format : ScriptFormat) (timestamp : String) : String :=
  match format with
  | .bash => resources.foldl (fun script r => script ++ bashResourceBlock r) (bashHeader timestamp) ++ bashTrailer
  | .bat => resources.foldl (fun script r => script ++ batResourceBlock r) (batHeader timestamp) ++ batTrailer

/-- The per-resource block as a function of the dialect. -/
def resourceBlock : ScriptFormat → EnrichedResource → String
  | .bash => bashResourceBlock
  | .bat => batResourceBlock

/-- The fixed header as a function of the dialect and the date. -/
def scriptHeader : ScriptFormat → String → String
  | .bash, timestamp => bashHeader timestamp
  | .bat, timestamp => batHeader timestamp

/-- The fixed trailer as a function of the dialect. -/
def scriptTrailer : ScriptFormat → String
  | .bash => bashTrailer
  | .bat => batTrailer

/-- Structural concatenation of a list of strings. -/
def joinStrings : List String → String
  | [] => ""
  | s :: rest => s ++ joinStrings rest

/-! ## Well-formed document shapes

Decidable renderings of the two document shapes of the specification: graph
form has a top-level `nodes` array of node records, each with a string
`type` identifier and an optional list of widget-literal values; execution
form is a mapping whose values are node records with a string `class_type`
and an optional nested `inputs` mapping. -/

/-- A well-formed node record of the graph (Saved) form. -/
def graphNodeWF (node : JVal) : Bool :=
  match node with
  | .jobj _ =>
    (match node.getField "type" with
     | some (.jstr _) => true
     | _ => false) &&
    (match node.getField "widgets_values" with
     | none => true
     | some (.jarr _) => true
     | some _ => false)
  | _ => false

/-- A well-formed graph-form document. -/
def GraphFormWF (data : JVal) : Bool :=
  match data.getField "nodes" with
  | some (.jarr nodes) => nodes.all graphNodeWF
  | _ => false

/-- A well-formed node record of the execution (API) form. -/
def execNodeWF (node : JVal) : Bool :=
  match node with
  | .jobj _ =>
    (match node.getField "class_type" with
     | some (.jstr _) => true
     | _ => false) &&
    (match node.getField "inputs" with
     | none => true
     | some (.jobj _) => true
     | some _ => false)
  | _ => false

/-- A well-formed execution-form document. -/
def ExecFormWF (data : JVal) : Bool :=
  match data with
  | .jobj fields => fields.all (fun p => execNodeWF p.2)
  | _ => false

/-- The rawName-distinctness invariant of a scanner state. -/
def namesNodup (st : ScanState) : Prop :=
  (st.1.map (fun it => it.rawName)).Nodup

/-! ## Decidability utilities -/

/-- Decidable equality of Except results, so that concrete runs of the
embedded functions evaluate inside proofs. -/
instance {e a : Type} [DecidableEq e] [DecidableEq a] : DecidableEq (Except e a) := fun x y =>
  match x, y with
  | .error u, .error v =>
    if h : u = v then .isTrue (congrArg Except.error h)
    else .isFalse (fun hc => h (Except.error.inj hc))
  | .error _, .ok _ => .isFalse (fun hc => Except.noConfusion hc)
  | .ok _, .error _ => .isFalse (fun hc => Except.noConfusion hc)
  | .ok u, .ok v =>
    if h : u = v then .isTrue (congrArg Except.ok h)
    else .isFalse (fun hc => h (Except.ok.inj hc))

set_option maxRecDepth 80000

/-! ## Concrete sample data used in counterexamples and witnesses -/

/-- A model resource with a well-formed download URL. -/
def sampleModelRes : EnrichedResource :=
  { id := 1, rawName := "v1-5-pruned.ckpt", isNode := false, name := "SD 1.5",
    type := .CHECKPOINT, description := "", targetPath := "models/checkpoints",
    downloadUrl := "https://huggingface.co/m/v1-5-pruned.ckpt",
    confidence := 9 / 10, computeType := .GPU, fileSize := "2GB" }

/-- A second resource sharing the same download URL. -/
def sampleModelResDup : EnrichedResource :=
  { sampleModelRes with
    id := 2
    rawName := "copy.ckpt"
    name := "SD 1.5 copy" }

/-- A resource with an empty download URL. -/
def sampleEmptyUrlRes : EnrichedResource :=
  { sampleModelRes with
    id := 3
    rawName := "mystery.bin"
    name := "Mystery"
    downloadUrl := "" }

/-- A custom-node resource with a GitHub download URL. -/
def sampleNodeRes : EnrichedResource :=
  { id := 4, rawName := "BarNode", isNode := true, name := "Bar",
    type := .CUSTOM_NODE, description := "", targetPath := "custom_nodes",
    downloadUrl := "https://github.com/foo/bar",
    confidence := 9 / 10, computeType := .CPU, fileSize := "50KB" }

/-- A response element whose rawName matches no scanned item. -/
def sampleGuessOther : GeminiGuess :=
  { rawName := "other_name"
    name := "Other"
    type := .LORA
    targetPath := "models/loras"
    downloadUrl := "https://civitai.com/o.safetensors"
    computeType := none
    fileSize := ""
    description := "a lora" }

/-- Twenty-one scanned items, so that the resolver forms two batches. -/
def items21 : List ScannedItem :=
  (List.range 21).map (fun i => ⟨i, "n" ++ toString i, false⟩)

/-- A one-node graph-form document whose single widget value is `s`. -/
def graphDocOneWidget (s : String) : JVal :=
  JVal.jobj [("nodes", JVal.jarr [JVal.jobj [("widgets_values", JVal.jarr [JVal.jstr s])]])]

/-- A well-formed one-node graph-form document: a non-core node type with one
checkpoint widget value. -/
def sampleGraphDoc : JVal :=
  JVal.jobj [("nodes", JVal.jarr
    [JVal.jobj [("type", JVal.jstr "MyCustomNode"),
                ("widgets_values", JVal.jarr [JVal.jstr "x.ckpt"])]])]

/-- A well-formed execution-form document with a core loader node, one known
file key and one duplicate value under an arbitrary key. -/
def sampleExecDoc : JVal :=
  JVal.jobj [("4", JVal.jobj
    [("class_type", JVal.jstr "Foo"),
     ("inputs", JVal.jobj [("ckpt_name", JVal.jstr "a.ckpt"), ("x", JVal.jstr "a.ckpt")])])]

/-! ## Claim C9 -/

/-- C9: the rule chain of `isDirectDownloadUrl`, evaluated in order with the
first match winning, classifies `search: lora for anime style` as invalid for
every resource type with a reason mentioning a search query, accepts the SSH
remote `git@github.com:foo/bar.git` for a custom node, and rejects
`https://example.com/file.zip` for a checkpoint, whose lowercased URL indeed
contains no recognized model host and matches no recognized model-file
extension. -/
theorem isDirectDownloadUrl_rule_chain_cases :
  (∀ t : ResourceType,
    isDirectDownloadUrl "search: lora for anime style" t =
      ⟨false, some "This is a search query, not a direct download link."⟩)
  ∧ strContains "This is a search query, not a direct download link." "search query" = true
  ∧ isDirectDownloadUrl "git@github.com:foo/bar.git" .CUSTOM_NODE = ⟨true, none⟩
  ∧ isDirectDownloadUrl "https://example.com/file.zip" .CHECKPOINT =
      ⟨false, some "Model URL might not be a direct download or recognized hosting platform."⟩
  ∧ commonModelHosts.any (fun host => strContains (jsToLower "https://example.com/file.zip") host) = false
  ∧ modelExtTest (jsToLower "https://example.com/file.zip") = false := by
  refine ⟨fun t => ?_, by decide, by decide, by decide, by decide, by decide⟩
  cases t <;> decide

/-! ## Claim C2 -/

/-- C2 counterexample: committing two resources with the same downloadUrl in
one commit stores two entries for that URL, because the set of existing URLs
is computed from the prior history only.  This refutes the claimed
at-most-one-entry-per-URL invariant of a single history add. -/
theorem addToHistory_same_commit_duplicates_kept :
  ((addToHistory [] [sampleModelRes, sampleModelResDup] "2026-10-12").filter
    (fun h => h.downloadUrl == "https://huggingface.co/m/v1-5-pruned.ckpt")).length = 2 := by
  decide

/-- C2 as amended: one history add deduplicates the committed resources only
against the prior history.  Every entry of the updated history is either a
prior entry or a new entry whose downloadUrl is nonempty and differs from the
downloadUrl of every prior entry; duplicates inside one commit are all
stored. -/
theorem addToHistory_dedup_against_prior :
  ∀ (prev : List HistoryItem) (resources : List EnrichedResource) (ts : String),
    (addToHistory prev resources ts).all
      (fun h => prev.contains h ||
        (h.downloadUrl != "" && prev.all (fun p => p.downloadUrl != h.downloadUrl))) = true := by
  intro prev resources ts
  simp only [addToHistory, List.all_eq_true, List.mem_append, List.mem_filter]
  intro h hmem
  rcases hmem with ⟨_, hpred⟩ | hprev
  · simp only [Bool.and_eq_true, Bool.not_eq_true', List.any_eq_false] at hpred
    refine Bool.or_eq_true_iff.mpr (Or.inr ?_)
    simp only [Bool.and_eq_true, List.all_eq_true]
    exact ⟨hpred.1, fun p hp => by simpa [bne] using hpred.2 p hp⟩
  · exact Bool.or_eq_true_iff.mpr (Or.inl (List.elem_eq_true_of_mem hprev))

/-! ## Claim C10 -/

/-- C10: the history add silently filters out committed resources whose
downloadUrl is the empty string, so if every prior entry has a nonempty
downloadUrl, every entry after the add does as well. -/
theorem addToHistory_filters_empty_urls :
  ∀ (prev : List HistoryItem) (resources : List EnrichedResource) (ts : String),
    (∀ h ∈ prev, h.downloadUrl ≠ "") →
    (addToHistory prev resources ts).all (fun h => h.downloadUrl != "") = true := by
  intro prev resources ts hprev
  simp only [addToHistory, List.all_eq_true, List.mem_append, List.mem_filter]
  intro h hmem
  rcases hmem with ⟨_, hpred⟩ | hmemPrev
  · simp only [Bool.and_eq_true] at hpred
    exact hpred.1
  · simpa [bne] using hprev h hmemPrev

/-- C10 witness: the add of a commit containing both an empty-URL resource
and a well-formed one, onto an empty history, yields only nonempty URLs. -/
theorem addToHistory_filters_empty_urls_witness :
  (addToHistory [] [sampleEmptyUrlRes, sampleModelRes] "2026-10-12").all
    (fun h => h.downloadUrl != "") = true :=
  addToHistory_filters_empty_urls [] [sampleEmptyUrlRes, sampleModelRes] "2026-10-12"
    (by intro h hmem; cases hmem)

/-! ## Claim C8 -/

/-- Accumulating blocks from an initial string is the initial string
followed by the concatenation of the blocks. -/
theorem foldl_append_eq_join (f : EnrichedResource → String) :
    ∀ (l : List EnrichedResource) (init : String),
      l.foldl (fun s r => s ++ f r) init = init ++ joinStrings (l.map f) := by
  intro l
  induction l with
  | nil => intro init; simp [joinStrings]
  | cons a as ih => intro init; simp [joinStrings, ih, String.append_assoc]

/-- C8: for every resource sequence, dialect and date, the synthesized
script is the fixed dialect header (the only part depending on the date)
followed by the per-resource blocks in input order, each a function of that
single resource and the dialect alone, followed by the fixed trailer; and a
resource with an empty downloadUrl contributes an empty block.  Hence equal
inputs give byte-identical output apart from the date header, and permuting
the input permutes only the blocks. -/
theorem generateScript_decomposition :
  (∀ (resources : List EnrichedResource) (fmt : ScriptFormat) (ts : String),
    generateScript resources fmt ts =
      scriptHeader fmt ts ++ joinStrings (resources.map (resourceBlock fmt)) ++ scriptTrailer fmt)
  ∧ (∀ (fmt : ScriptFormat) (r : EnrichedResource), r.downloadUrl = "" → resourceBlock fmt r = "") := by
  constructor
  · intro resources fmt ts
    cases fmt <;>
      simp [generateScript, scriptHeader, scriptTrailer, resourceBlock, foldl_append_eq_join]
  · intro fmt r h
    cases fmt <;> simp [resourceBlock, bashResourceBlock, batResourceBlock, h]

/-- C8 witness: the empty-URL resource produces an empty bash block. -/
theorem generateScript_decomposition_witness :
  resourceBlock .bash sampleEmptyUrlRes = "" :=
  generateScript_decomposition.2 .bash sampleEmptyUrlRes rfl

/-! ## Claim C4 -/

/-- C4 (code bug): in the POSIX block for a custom-node resource with a
nonempty download URL, nine conditionals are opened with `if ...; then` but
only eight are closed with `fi`: the submodule-failure warning conditional
is closed with a stray brace (the line of four spaces and a brace below),
so the three post-clone steps are not each wrapped in a well-formed
conditional.  The batch dialect closes the corresponding conditional
properly with a parenthesis, so the dialects diverge structurally. -/
theorem bash_custom_node_block_unbalanced_fi :
  countOcc (bashResourceBlock sampleNodeRes).toList "; then\n".toList = 9
  ∧ countOcc (bashResourceBlock sampleNodeRes).toList "fi\n".toList = 8
  ∧ strContains (bashResourceBlock sampleNodeRes) "    \x7d\n" = true
  ∧ strContains (batResourceBlock sampleNodeRes) "    )\n" = true := by
  exact ⟨by decide, by decide, by decide, by decide⟩

/-! ## Claim C1 -/

/-- C1 counterexample: resolution is driven by the response, not by the
scanned items.  A scanned item with no matching response element contributes
no output resource at all (in particular none with type Unknown and its id),
and a response element with an unmatched rawName yields a resource whose
rawName comes from the response and whose id is freshly generated. -/
theorem resolver_drops_unmatched_scanned_item :
  analyzeResourcesWithGemini [⟨7, "missing_model.safetensors", false⟩]
    (fun _ => .text (some [])) (fun _ _ => 0) = .ok []
  ∧ analyzeResourcesWithGemini [⟨7, "missing_model.safetensors", false⟩]
    (fun _ => .text (some [sampleGuessOther])) (fun _ _ => 99) =
    .ok [{ id := 99, rawName := "other_name", isNode := false, name := "Other",
           type := .LORA, description := "a lora", targetPath := "models/loras",
           downloadUrl := "https://civitai.com/o.safetensors", confidence := 9 / 10,
           computeType := .GPU, fileSize := "N/A" }] := by
  exact ⟨by decide, by rfl⟩

/-- The rawName of a merged resource comes from the response element. -/
theorem mergeGuess_rawName (chunk : List ScannedItem) (fresh : Nat) (g : GeminiGuess) :
    (mergeGuess chunk fresh g).rawName = g.rawName := rfl

/-- C1 as amended: the resolver emits exactly one resource per response
element, in response order, with rawName taken from the response; id and
isNode come from the first scanned item of the batch whose rawName matches
the response element when one exists, and otherwise isNode defaults to
false (with a fresh id). -/
theorem resolver_output_follows_guesses :
  ∀ (chunk : List ScannedItem) (guesses : List GeminiGuess) (uuid : Nat → Nat),
    (mergeChunk chunk guesses uuid).map (fun r => r.rawName) = guesses.map (fun g => g.rawName)
    ∧ ((mergeChunk chunk guesses uuid).all (fun r =>
        match chunk.find? (fun c => c.rawName == r.rawName) with
        | some o => (r.id == o.id) && (r.isNode == o.isNode)
        | none => r.isNode == false)) = true := by
  have hname : ∀ (chunk : List ScannedItem) (uuid : Nat → Nat) (gs : List GeminiGuess) (i : Nat),
      (mergeChunkAux chunk uuid i gs).map (fun r => r.rawName) = gs.map (fun g => g.rawName) := by
    intro chunk uuid gs
    induction gs with
    | nil => intro i; rfl
    | cons g gs ih => intro i; simp [mergeChunkAux, mergeGuess_rawName, ih]
  have hid : ∀ (chunk : List ScannedItem) (uuid : Nat → Nat) (gs : List GeminiGuess) (i : Nat),
      ((mergeChunkAux chunk uuid i gs).all (fun r =>
        match chunk.find? (fun c => c.rawName == r.rawName) with
        | some o => (r.id == o.id) && (r.isNode == o.isNode)
        | none => r.isNode == false)) = true := by
    intro chunk uuid gs
    induction gs with
    | nil => intro i; rfl
    | cons g gs ih =>
      intro i
      rw [mergeChunkAux, List.all_cons, ih, Bool.and_true, mergeGuess_rawName]
      cases hfind : chunk.find? (fun c => c.rawName == g.rawName) with
      | none => simp [mergeGuess, hfind]
      | some o => simp [mergeGuess, hfind]
  intro chunk guesses uuid
  exact ⟨hname chunk uuid guesses 0, hid chunk uuid guesses 0⟩

/-! ## Claim C3 -/

/-- C3 counterexample: when the external call of the first batch fails, the
error propagates out of the resolver: the second batch is not resolved and
no partial result is returned, refuting the claim that a failing call
contributes zero resources while later batches are still resolved. -/
theorem resolver_call_failure_aborts_pipeline :
  analyzeResourcesWithGemini items21
    (fun b => if b = 0 then .callFailed else .text (some [sampleGuessOther]))
    (fun _ _ => 0) = .error () := by
  decide

/-- C3 as amended: as long as no batch call fails outright, resolution
succeeds and returns the concatenation, in batch order, of the per-batch
contributions, where a batch with missing or unparsable response text
contributes nothing; but a failing batch call aborts resolution of every
later batch and discards all earlier results. -/
theorem resolveChunks_partial_results :
  (∀ (cs : List (List ScannedItem)) (out : Nat → BatchOutcome) (uuid : Nat → Nat → Nat),
    (∀ j, j < cs.length → out j ≠ .callFailed) →
    resolveChunks uuid cs out = .ok (contribs uuid cs out))
  ∧ (∀ (cs : List (List ScannedItem)) (out : Nat → BatchOutcome) (uuid : Nat → Nat → Nat) (j : Nat),
    j < cs.length → out j = .callFailed → (∀ k, k < j → out k ≠ .callFailed) →
    resolveChunks uuid cs out = .error ()) := by
  constructor
  · intro cs
    induction cs with
    | nil => intro out uuid h; rfl
    | cons c cs ih =>
      intro out uuid h
      have h0 : out 0 ≠ .callFailed := h 0 (by simp)
      have hrec := ih (fun n => out (n + 1)) (fun b => uuid (b + 1))
        (fun j hj => h (j + 1) (by simp only [List.length_cons]; omega))
      cases ho : out 0 with
      | callFailed => exact absurd ho h0
      | noText => simp [resolveChunks, contribs, chunkContrib, ho, hrec, Except.map]
      | text parsed =>
        cases parsed with
        | none => simp [resolveChunks, contribs, chunkContrib, ho, hrec, Except.map]
        | some gs => simp [resolveChunks, contribs, chunkContrib, ho, hrec, Except.map]
  · intro cs
    induction cs with
    | nil => intro out uuid j hj; exact absurd hj (by simp)
    | cons c cs ih =>
      intro out uuid j hj hfail hbefore
      cases j with
      | zero => simp [resolveChunks, hfail]
      | succ j =>
        have h0 : out 0 ≠ .callFailed := hbefore 0 (Nat.succ_pos j)
        have hrec := ih (fun n => out (n + 1)) (fun b => uuid (b + 1)) j
          (by simp only [List.length_cons] at hj; omega) hfail
          (fun k hk => hbefore (k + 1) (by omega))
        cases ho : out 0 with
        | callFailed => exact absurd ho h0
        | noText => simp [resolveChunks, ho, hrec, Except.map]
        | text parsed =>
          cases parsed with
          | none => simp [resolveChunks, ho, hrec, Except.map]
          | some gs => simp [resolveChunks, ho, hrec, Except.map]

/-- C3 witness: a two-batch run whose first batch has unparsable text and
whose second parses to an empty list succeeds with the concatenated
contributions. -/
theorem resolveChunks_partial_results_witness :
  resolveChunks (fun _ _ => 0) [[⟨0, "a", true⟩], [⟨1, "b", false⟩]]
    (fun b => if b = 0 then .text none else .text (some [sampleGuessOther])) =
    .ok (contribs (fun _ _ => 0) [[⟨0, "a", true⟩], [⟨1, "b", false⟩]]
      (fun b => if b = 0 then .text none else .text (some [sampleGuessOther]))) :=
  resolveChunks_partial_results.1 _ _ _ (by decide)

/-! ## Claim C5 -/

/-- C5 counterexample: a graph-form widget value ending in `.pt` is not
extracted, because the graph branch checks only `.safetensors` and `.ckpt`;
the same `.pt` value under an arbitrary key of an execution-form inputs
mapping is extracted. -/
theorem graph_form_ignores_pt_extension :
  parseWorkflowData (some (graphDocOneWidget "model.pt")) = .ok []
  ∧ parseWorkflowData (some (JVal.jobj
      [("4", JVal.jobj [("class_type", JVal.jstr "KSampler"),
        ("inputs", JVal.jobj [("x", JVal.jstr "model.pt")])])])) =
    .ok [⟨0, "model.pt", false⟩] := by
  exact ⟨by decide, by decide⟩

/-- C5 as amended: in graph form, a nonempty widget-literal string is
extracted (trimmed, as a file item with the next fresh id) exactly when its
lowercased form ends in `.safetensors` or `.ckpt`; `.pt` and `.pth` are not
among the graph-form extensions. -/
theorem graph_widget_extraction_exts :
  ∀ s : String, s ≠ "" →
    parseWorkflowData (some (graphDocOneWidget s)) =
      .ok (if jsEnds (jsToLower s) ".safetensors" || jsEnds (jsToLower s) ".ckpt"
           then [⟨0, jsTrim s, false⟩] else []) := by
  intro s hs
  by_cases hext : (jsEnds (jsToLower s) ".safetensors" || jsEnds (jsToLower s) ".ckpt") = true
  · simp [parseWorkflowData, graphDocOneWidget, JVal.getField, scanGraphNode,
      scanGraphNodeBody, scanWidgetVal, addItem, hext, hs, List.foldlM, Except.map]
  · rw [Bool.not_eq_true] at hext
    simp [parseWorkflowData, graphDocOneWidget, JVal.getField, scanGraphNode,
      scanGraphNodeBody, scanWidgetVal, addItem, hext, List.foldlM, Except.map]

/-- C5 witness: a `.ckpt` widget value is extracted as a file item. -/
theorem graph_widget_extraction_exts_witness :
  parseWorkflowData (some (graphDocOneWidget "anime.ckpt")) =
    .ok (if jsEnds (jsToLower "anime.ckpt") ".safetensors" || jsEnds (jsToLower "anime.ckpt") ".ckpt"
         then [⟨0, jsTrim "anime.ckpt", false⟩] else []) :=
  graph_widget_extraction_exts "anime.ckpt" (by decide)

/-! ## Claims C6 and C7: scanner lemmas -/

/-- Mapping over an Except value yields an error exactly for an error. -/
theorem exceptMap_error {e a b : Type} (f : a → b) (x : Except e a) (err : e) :
    x.map f = .error err ↔ x = .error err := by
  cases x <;> simp [Except.map]

/-- Mapping over an Except value yields ok exactly from an ok value. -/
theorem exceptMap_ok {e a b : Type} (f : a → b) (x : Except e a) (y : b) :
    x.map f = .ok y ↔ ∃ v, x = .ok v ∧ y = f v := by
  cases x <;> simp [Except.map, eq_comm]

/-- The core-node check errors only with a TypeError. -/
theorem isCoreNodeJS_error {t : JVal} {e : ScanErr} (h : isCoreNodeJS t = .error e) :
    e = .typeError := by
  cases t <;> simp [isCoreNodeJS] at h <;> (try exact h.symm)

/-- Node-type processing errors only with a TypeError. -/
theorem scanNodeType_error {st : ScanState} {t : JVal} {e : ScanErr}
    (h : scanNodeType st t = .error e) : e = .typeError := by
  unfold scanNodeType at h
  split at h
  · cases hc : isCoreNodeJS t with
    | error e2 =>
      rw [hc] at h
      cases h
      exact isCoreNodeJS_error hc
    | ok core => rw [hc] at h; cases h
  · cases h

/-- Node-type processing of a truthy string always succeeds. -/
theorem scanNodeType_str_ok (st : ScanState) (s : String) :
    scanNodeType st (.jstr s) =
      .ok (if (JVal.jstr s).truthy then
            (if isCoreNode s then st else addItem st (.jstr s) true) else st) := by
  by_cases h : (JVal.jstr s).truthy = true
  · simp [scanNodeType, isCoreNodeJS, h]
  · rw [Bool.not_eq_true] at h
    simp [scanNodeType, h]

/-- The graph-node body errors only with a TypeError. -/
theorem scanGraphNodeBody_error {st : ScanState} {n : JVal} {e : ScanErr}
    (h : scanGraphNodeBody st n = .error e) : e = .typeError := by
  rw [scanGraphNodeBody, exceptMap_error] at h
  split at h
  · exact scanNodeType_error h
  · cases h

/-- A graph node errors only with a TypeError. -/
theorem scanGraphNode_error {st : ScanState} {n : JVal} {e : ScanErr}
    (h : scanGraphNode st n = .error e) : e = .typeError := by
  cases n
  case jnull => cases h; rfl
  all_goals
    (simp only [scanGraphNode] at h
     exact scanGraphNodeBody_error h)

/-- The execution-node body errors only with a TypeError. -/
theorem scanExecNodeBody_error {st : ScanState} {n : JVal} {e : ScanErr}
    (h : scanExecNodeBody st n = .error e) : e = .typeError := by
  rw [scanExecNodeBody, exceptMap_error] at h
  split at h
  · exact scanNodeType_error h
  · cases h

/-- An execution node errors only with a TypeError. -/
theorem scanExecNode_error {st : ScanState} {n : JVal} {e : ScanErr}
    (h : scanExecNode st n = .error e) : e = .typeError := by
  cases n
  case jnull => cases h; rfl
  all_goals
    (simp only [scanExecNode] at h
     exact scanExecNodeBody_error h)

/-- The graph fold errors only with a TypeError. -/
theorem graphFold_error :
    ∀ (nodes : List JVal) (st : ScanState) (e : ScanErr),
      nodes.foldlM scanGraphNode st = .error e → e = .typeError := by
  intro nodes
  induction nodes with
  | nil => intro st e h; rw [List.foldlM_nil] at h; cases h
  | cons n ns ih =>
    intro st e h
    rw [List.foldlM_cons] at h
    cases hn : scanGraphNode st n with
    | error e2 =>
      rw [hn] at h
      cases h
      exact scanGraphNode_error hn
    | ok st2 =>
      rw [hn] at h
      exact ih st2 e h

/-- The execution fold errors only with a TypeError. -/
theorem execFold_error :
    ∀ (pairs : List (String × JVal)) (st : ScanState) (e : ScanErr),
      pairs.foldlM (fun st p => scanExecNode st p.2) st = .error e → e = .typeError := by
  intro pairs
  induction pairs with
  | nil => intro st e h; rw [List.foldlM_nil] at h; cases h
  | cons p ps ih =>
    intro st e h
    rw [List.foldlM_cons] at h
    cases hn : scanExecNode st p.2 with
    | error e2 =>
      rw [hn] at h
      cases h
      exact scanExecNode_error hn
    | ok st2 =>
      rw [hn] at h
      exact ih st2 e h

/-- The graph-node body succeeds when the type field is a string. -/
theorem scanGraphNodeBody_ok_of_type_str (st : ScanState) (node : JVal) (s : String)
    (hT : node.getField "type" = some (.jstr s)) :
    ∃ st2, scanGraphNodeBody st node = .ok st2 := by
  simp only [scanGraphNodeBody, hT, scanNodeType_str_ok, Except.map]
  exact ⟨_, rfl⟩

/-- The execution-node body succeeds when the class_type field is a
string. -/
theorem scanExecNodeBody_ok_of_type_str (st : ScanState) (node : JVal) (s : String)
    (hT : node.getField "class_type" = some (.jstr s)) :
    ∃ st2, scanExecNodeBody st node = .ok st2 := by
  simp only [scanExecNodeBody, hT, scanNodeType_str_ok, Except.map]
  exact ⟨_, rfl⟩

/-- A well-formed graph node is scanned without error from any state. -/
theorem scanGraphNode_ok_of_wf (st : ScanState) (node : JVal)
    (hwf : graphNodeWF node = true) : ∃ st2, scanGraphNode st node = .ok st2 := by
  cases node with
  | jobj fields =>
    cases hT : (JVal.jobj fields).getField "type" with
    | none => simp [graphNodeWF, hT] at hwf
    | some t =>
      cases t with
      | jstr s =>
        simp only [scanGraphNode]
        exact scanGraphNodeBody_ok_of_type_str st _ s hT
      | jnull => simp [graphNodeWF, hT] at hwf
      | jbool b => simp [graphNodeWF, hT] at hwf
      | jnum v => simp [graphNodeWF, hT] at hwf
      | jarr l => simp [graphNodeWF, hT] at hwf
      | jobj f2 => simp [graphNodeWF, hT] at hwf
  | jnull => simp [graphNodeWF] at hwf
  | jbool b => simp [graphNodeWF] at hwf
  | jnum v => simp [graphNodeWF] at hwf
  | jstr s => simp [graphNodeWF] at hwf
  | jarr l => simp [graphNodeWF] at hwf

/-- A well-formed execution node is scanned without error from any state. -/
theorem scanExecNode_ok_of_wf (st : ScanState) (node : JVal)
    (hwf : execNodeWF node = true) : ∃ st2, scanExecNode st node = .ok st2 := by
  cases node with
  | jobj fields =>
    cases hT : (JVal.jobj fields).getField "class_type" with
    | none => simp [execNodeWF, hT] at hwf
    | some t =>
      cases t with
      | jstr s =>
        simp only [scanExecNode]
        exact scanExecNodeBody_ok_of_type_str st _ s hT
      | jnull => simp [execNodeWF, hT] at hwf
      | jbool b => simp [execNodeWF, hT] at hwf
      | jnum v => simp [execNodeWF, hT] at hwf
      | jarr l => simp [execNodeWF, hT] at hwf
      | jobj f2 => simp [execNodeWF, hT] at hwf
  | jnull => simp [execNodeWF] at hwf
  | jbool b => simp [execNodeWF] at hwf
  | jnum v => simp [execNodeWF] at hwf
  | jstr s => simp [execNodeWF] at hwf
  | jarr l => simp [execNodeWF] at hwf

/-- The graph fold over well-formed nodes succeeds from any state. -/
theorem graphFold_ok_of_wf :
    ∀ (nodes : List JVal) (st : ScanState),
      (∀ n ∈ nodes, graphNodeWF n = true) →
      ∃ st2, nodes.foldlM scanGraphNode st = .ok st2 := by
  intro nodes
  induction nodes with
  | nil => intro st _; exact ⟨st, rfl⟩
  | cons n ns ih =>
    intro st hall
    obtain ⟨st1, h1⟩ := scanGraphNode_ok_of_wf st n (hall n (by simp))
    obtain ⟨st2, h2⟩ := ih st1 (fun m hm => hall m (by simp [hm]))
    exact ⟨st2, by rw [List.foldlM_cons, h1]; exact h2⟩

/-- The execution fold over well-formed node values succeeds from any
state. -/
theorem execFold_ok_of_wf :
    ∀ (pairs : List (String × JVal)) (st : ScanState),
      (∀ p ∈ pairs, execNodeWF p.2 = true) →
      ∃ st2, pairs.foldlM (fun st p => scanExecNode st p.2) st = .ok st2 := by
  intro pairs
  induction pairs with
  | nil => intro st _; exact ⟨st, rfl⟩
  | cons p ps ih =>
    intro st hall
    obtain ⟨st1, h1⟩ := scanExecNode_ok_of_wf st p.2 (hall p (by simp))
    obtain ⟨st2, h2⟩ := ih st1 (fun q hq => hall q (by simp [hq]))
    exact ⟨st2, by rw [List.foldlM_cons, h1]; exact h2⟩

/-- C6: the scanner fails with the parse error exactly on unparsable input.
Unparsable text yields the parse error and nothing else; parsed input never
yields the parse error (runtime type errors on degenerate parsed values are
a different error); and every well-formed document of either shape is
scanned successfully, possibly to an empty item list. -/
theorem parseWorkflowData_parse_error_contract :
  parseWorkflowData none = .error .parseError
  ∧ (∀ j : JVal, parseWorkflowData (some j) ≠ .error .parseError)
  ∧ (∀ j : JVal, GraphFormWF j = true → (parseWorkflowData (some j)).isOk = true)
  ∧ (∀ j : JVal, ExecFormWF j = true → (parseWorkflowData (some j)).isOk = true) := by
  refine ⟨rfl, ?_, ?_, ?_⟩
  · intro j h
    cases j with
    | jnull => cases h
    | jbool b =>
      simp only [parseWorkflowData, JVal.getField, JVal.enumPairs] at h
      rw [exceptMap_error] at h
      exact absurd (execFold_error _ _ _ h) (by simp)
    | jnum v =>
      simp only [parseWorkflowData, JVal.getField, JVal.enumPairs] at h
      rw [exceptMap_error] at h
      exact absurd (execFold_error _ _ _ h) (by simp)
    | jstr s =>
      simp only [parseWorkflowData, JVal.getField, JVal.enumPairs] at h
      rw [exceptMap_error] at h
      exact absurd (execFold_error _ _ _ h) (by simp)
    | jarr l =>
      simp only [parseWorkflowData, JVal.getField, JVal.enumPairs] at h
      rw [exceptMap_error] at h
      exact absurd (execFold_error _ _ _ h) (by simp)
    | jobj fields =>
      simp only [parseWorkflowData] at h
      cases hn : (JVal.jobj fields).getField "nodes" with
      | none =>
        simp only [hn] at h
        rw [exceptMap_error] at h
        exact absurd (execFold_error _ _ _ h) (by simp)
      | some v =>
        cases v with
        | jarr nodes =>
          simp only [hn] at h
          rw [exceptMap_error] at h
          exact absurd (graphFold_error _ _ _ h) (by simp)
        | jnull =>
          simp only [hn] at h
          rw [exceptMap_error] at h
          exact absurd (execFold_error _ _ _ h) (by simp)
        | jbool b =>
          simp only [hn] at h
          rw [exceptMap_error] at h
          exact absurd (execFold_error _ _ _ h) (by simp)
        | jnum v2 =>
          simp only [hn] at h
          rw [exceptMap_error] at h
          exact absurd (execFold_error _ _ _ h) (by simp)
        | jstr s =>
          simp only [hn] at h
          rw [exceptMap_error] at h
          exact absurd (execFold_error _ _ _ h) (by simp)
        | jobj f2 =>
          simp only [hn] at h
          rw [exceptMap_error] at h
          exact absurd (execFold_error _ _ _ h) (by simp)
  · intro j hwf
    cases j with
    | jobj fields =>
      cases hn : (JVal.jobj fields).getField "nodes" with
      | none => simp [GraphFormWF, hn] at hwf
      | some v =>
        cases v with
        | jarr nodes =>
          have hall : ∀ n ∈ nodes, graphNodeWF n = true := by
            simp only [GraphFormWF, hn, List.all_eq_true] at hwf
            exact hwf
          obtain ⟨st2, hst⟩ := graphFold_ok_of_wf nodes ([], 0) hall
          simp [parseWorkflowData, hn, hst, Except.map, Except.isOk, Except.toBool]
        | jnull => simp [GraphFormWF, hn] at hwf
        | jbool b => simp [GraphFormWF, hn] at hwf
        | jnum v2 => simp [GraphFormWF, hn] at hwf
        | jstr s => simp [GraphFormWF, hn] at hwf
        | jobj f2 => simp [GraphFormWF, hn] at hwf
    | jnull => simp [GraphFormWF, JVal.getField] at hwf
    | jbool b => simp [GraphFormWF, JVal.getField] at hwf
    | jnum v => simp [GraphFormWF, JVal.getField] at hwf
    | jstr s => simp [GraphFormWF, JVal.getField] at hwf
    | jarr l => simp [GraphFormWF, JVal.getField] at hwf
  · intro j hwf
    cases j with
    | jobj fields =>
      have hall : ∀ p ∈ fields, execNodeWF p.2 = true := by
        simp only [ExecFormWF, List.all_eq_true] at hwf
        exact hwf
      cases hn : (JVal.jobj fields).getField "nodes" with
      | none =>
        obtain ⟨st2, hst⟩ := execFold_ok_of_wf fields ([], 0) hall
        simp [parseWorkflowData, hn, JVal.enumPairs, hst, Except.map, Except.isOk, Except.toBool]
      | some v =>
        cases v with
        | jarr l =>
          exfalso
          have hex : ∃ a, List.find? (fun p => p.1 == "nodes") fields = some (a, JVal.jarr l) := by
            simpa [JVal.getField] using hn
          rcases hex with ⟨a, hfind⟩
          have hmem := List.mem_of_find?_eq_some hfind
          have hwfp := hall _ hmem
          simp [execNodeWF] at hwfp
        | jnull =>
          obtain ⟨st2, hst⟩ := execFold_ok_of_wf fields ([], 0) hall
          simp [parseWorkflowData, hn, JVal.enumPairs, hst, Except.map, Except.isOk, Except.toBool]
        | jbool b =>
          obtain ⟨st2, hst⟩ := execFold_ok_of_wf fields ([], 0) hall
          simp [parseWorkflowData, hn, JVal.enumPairs, hst, Except.map, Except.isOk, Except.toBool]
        | jnum v2 =>
          obtain ⟨st2, hst⟩ := execFold_ok_of_wf fields ([], 0) hall
          simp [parseWorkflowData, hn, JVal.enumPairs, hst, Except.map, Except.isOk, Except.toBool]
        | jstr s =>
          obtain ⟨st2, hst⟩ := execFold_ok_of_wf fields ([], 0) hall
          simp [parseWorkflowData, hn, JVal.enumPairs, hst, Except.map, Except.isOk, Except.toBool]
        | jobj f2 =>
          obtain ⟨st2, hst⟩ := execFold_ok_of_wf fields ([], 0) hall
          simp [parseWorkflowData, hn, JVal.enumPairs, hst, Except.map, Except.isOk, Except.toBool]
    | jnull => simp [ExecFormWF] at hwf
    | jbool b => simp [ExecFormWF] at hwf
    | jnum v => simp [ExecFormWF] at hwf
    | jstr s => simp [ExecFormWF] at hwf
    | jarr l => simp [ExecFormWF] at hwf

/-- C6 witness: a well-formed graph document and a well-formed execution
document both scan successfully, and unparsable input is the parse error. -/
theorem parseWorkflowData_parse_error_contract_witness :
  (parseWorkflowData (some sampleGraphDoc)).isOk = true
  ∧ (parseWorkflowData (some sampleExecDoc)).isOk = true :=
  ⟨parseWorkflowData_parse_error_contract.2.2.1 sampleGraphDoc (by decide),
   parseWorkflowData_parse_error_contract.2.2.2 sampleExecDoc (by decide)⟩

/-- Adding an item preserves rawName distinctness: the new trimmed name is
inserted only when no stored item already carries it. -/
theorem addItem_nodup {st : ScanState} (v : JVal) (b : Bool)
    (h : namesNodup st) : namesNodup (addItem st v b) := by
  cases v with
  | jstr s =>
    by_cases hs : s = ""
    · simpa [addItem, hs] using h
    · by_cases hdup : st.1.any (fun it => it.rawName == jsTrim s) = true
      · simp only [addItem, if_neg hs, if_pos hdup]
        exact h
      · simp only [addItem, if_neg hs, if_neg hdup]
        unfold namesNodup
        rw [List.map_append, List.nodup_append]
        refine ⟨h, by simp, ?_⟩
        intro x hx hx2
        simp only [List.map_cons, List.map_nil, List.mem_singleton] at hx2
        subst hx2
        rcases List.mem_map.mp hx with ⟨it, hit, heq⟩
        exact hdup (List.any_eq_true.mpr ⟨it, hit, by simp [heq]⟩)
  | jnull => exact h
  | jbool b2 => exact h
  | jnum n => exact h
  | jarr l => exact h
  | jobj f => exact h

/-- Widget-value processing preserves rawName distinctness. -/
theorem scanWidgetVal_nodup {st : ScanState} (v : JVal)
    (h : namesNodup st) : namesNodup (scanWidgetVal st v) := by
  cases v with
  | jstr s =>
    by_cases hc : (jsEnds (jsToLower s) ".safetensors" || jsEnds (jsToLower s) ".ckpt") = true
    · simp only [scanWidgetVal, if_pos hc]
      exact addItem_nodup _ _ h
    · simp only [scanWidgetVal, if_neg hc]
      exact h
  | jnull => exact h
  | jbool b => exact h
  | jnum n => exact h
  | jarr l => exact h
  | jobj f => exact h

/-- The widget fold preserves rawName distinctness. -/
theorem foldWidget_nodup :
    ∀ (vals : List JVal) (st : ScanState),
      namesNodup st → namesNodup (vals.foldl scanWidgetVal st) := by
  intro vals
  induction vals with
  | nil => intro st h; exact h
  | cons v vs ih => intro st h; exact ih _ (scanWidgetVal_nodup v h)

/-- Input-pair processing preserves rawName distinctness. -/
theorem processInputVal_nodup {st : ScanState} (p : String × JVal)
    (h : namesNodup st) : namesNodup (processInputVal st p) := by
  rcases p with ⟨k, v⟩
  cases v with
  | jstr s =>
    by_cases hc : (fileKeys.contains k || hasModelExt (jsToLower s)) = true
    · simp only [processInputVal, if_pos hc]
      exact addItem_nodup _ _ h
    · simp only [processInputVal, if_neg hc]
      exact h
  | jnull => exact h
  | jbool b => exact h
  | jnum n => exact h
  | jarr l => exact h
  | jobj f => exact h

/-- The inputs fold preserves rawName distinctness. -/
theorem foldInputs_nodup :
    ∀ (pairs : List (String × JVal)) (st : ScanState),
      namesNodup st → namesNodup (pairs.foldl processInputVal st) := by
  intro pairs
  induction pairs with
  | nil => intro st h; exact h
  | cons p ps ih => intro st h; exact ih _ (processInputVal_nodup p h)

/-- processInputs preserves rawName distinctness. -/
theorem processInputs_nodup (inputs : JVal) {st : ScanState}
    (h : namesNodup st) : namesNodup (processInputs inputs st) := by
  by_cases ht : inputs.truthy = true
  · simp only [processInputs, if_pos ht]
    exact foldInputs_nodup _ _ h
  · simp only [processInputs, if_neg ht]
    exact h

/-- Node-type processing preserves rawName distinctness. -/
theorem scanNodeType_nodup {st st2 : ScanState} {t : JVal}
    (hok : scanNodeType st t = .ok st2) (h : namesNodup st) : namesNodup st2 := by
  unfold scanNodeType at hok
  split at hok
  · cases hc : isCoreNodeJS t with
    | error e => rw [hc] at hok; cases hok
    | ok core =>
      rw [hc] at hok
      cases hok
      by_cases hcore : core = true
      · simpa [hcore] using h
      · rw [Bool.not_eq_true] at hcore
        simpa [hcore] using addItem_nodup t true h
  · cases hok
    exact h

/-- The graph-node body preserves rawName distinctness. -/
theorem scanGraphNodeBody_nodup {st st2 : ScanState} {n : JVal}
    (hok : scanGraphNodeBody st n = .ok st2) (h : namesNodup st) : namesNodup st2 := by
  rw [scanGraphNodeBody] at hok
  rw [exceptMap_ok] at hok
  rcases hok with ⟨st1, hstep, hst2⟩
  subst hst2
  have h1 : namesNodup st1 := by
    revert hstep
    split
    · intro hstep; exact scanNodeType_nodup hstep h
    · intro hstep; cases hstep; exact h
  split
  · exact foldWidget_nodup _ _ h1
  · exact h1

/-- The execution-node body preserves rawName distinctness. -/
theorem scanExecNodeBody_nodup {st st2 : ScanState} {n : JVal}
    (hok : scanExecNodeBody st n = .ok st2) (h : namesNodup st) : namesNodup st2 := by
  rw [scanExecNodeBody] at hok
  rw [exceptMap_ok] at hok
  rcases hok with ⟨st1, hstep, hst2⟩
  subst hst2
  have h1 : namesNodup st1 := by
    revert hstep
    split
    · intro hstep; exact scanNodeType_nodup hstep h
    · intro hstep; cases hstep; exact h
  split
  · split
    · exact processInputs_nodup _ h1
    · exact h1
  · exact h1

/-- A graph node preserves rawName distinctness. -/
theorem scanGraphNode_nodup {st st2 : ScanState} {n : JVal}
    (hok : scanGraphNode st n = .ok st2) (h : namesNodup st) : namesNodup st2 := by
  cases n
  case jnull => cases hok
  all_goals
    (simp only [scanGraphNode] at hok
     exact scanGraphNodeBody_nodup hok h)

/-- An execution node preserves rawName distinctness. -/
theorem scanExecNode_nodup {st st2 : ScanState} {n : JVal}
    (hok : scanExecNode st n = .ok st2) (h : namesNodup st) : namesNodup st2 := by
  cases n
  case jnull => cases hok
  all_goals
    (simp only [scanExecNode] at hok
     exact scanExecNodeBody_nodup hok h)

/-- The graph fold preserves rawName distinctness. -/
theorem graphFold_nodup :
    ∀ (nodes : List JVal) (st st2 : ScanState),
      nodes.foldlM scanGraphNode st = .ok st2 → namesNodup st → namesNodup st2 := by
  intro nodes
  induction nodes with
  | nil => intro st st2 hok h; rw [List.foldlM_nil] at hok; cases hok; exact h
  | cons n ns ih =>
    intro st st2 hok h
    rw [List.foldlM_cons] at hok
    cases hn : scanGraphNode st n with
    | error e => rw [hn] at hok; cases hok
    | ok st1 =>
      rw [hn] at hok
      exact ih st1 st2 hok (scanGraphNode_nodup hn h)

/-- The execution fold preserves rawName distinctness. -/
theorem execFold_nodup :
    ∀ (pairs : List (String × JVal)) (st st2 : ScanState),
      pairs.foldlM (fun st p => scanExecNode st p.2) st = .ok st2 →
      namesNodup st → namesNodup st2 := by
  intro pairs
  induction pairs with
  | nil => intro st st2 hok h; rw [List.foldlM_nil] at hok; cases hok; exact h
  | cons p ps ih =>
    intro st st2 hok h
    rw [List.foldlM_cons] at hok
    cases hn : scanExecNode st p.2 with
    | error e => rw [hn] at hok; cases hok
    | ok st1 =>
      rw [hn] at hok
      exact ih st1 st2 hok (scanExecNode_nodup hn h)

/-- C7: the scanner never returns two items with the same rawName: every
successful scan yields a list whose rawNames are pairwise distinct; and a
later occurrence whose trimmed name is already stored leaves the state
unchanged (first occurrence wins, comparison on trimmed names). -/
theorem parseWorkflowData_rawName_nodup :
  (∀ (doc : Option JVal) (l : List ScannedItem),
    parseWorkflowData doc = .ok l → (l.map (fun it => it.rawName)).Nodup)
  ∧ (∀ (st : ScanState) (s : String) (b : Bool),
    st.1.any (fun it => it.rawName == jsTrim s) = true → addItem st (.jstr s) b = st) := by
  constructor
  · intro doc l h
    cases doc with
    | none => cases h
    | some j =>
      cases j with
      | jnull => cases h
      | jobj fields =>
        simp only [parseWorkflowData] at h
        cases hn : (JVal.jobj fields).getField "nodes" with
        | some v =>
          cases v with
          | jarr nodes =>
            simp only [hn] at h
            rw [exceptMap_ok] at h
            rcases h with ⟨st2, hfold, hl⟩
            subst hl
            exact graphFold_nodup nodes ([], 0) st2 hfold (by simp [namesNodup])
          | jnull =>
            simp only [hn] at h
            rw [exceptMap_ok] at h
            rcases h with ⟨st2, hfold, hl⟩
            subst hl
            exact execFold_nodup _ ([], 0) st2 hfold (by simp [namesNodup])
          | jbool b =>
            simp only [hn] at h
            rw [exceptMap_ok] at h
            rcases h with ⟨st2, hfold, hl⟩
            subst hl
            exact execFold_nodup _ ([], 0) st2 hfold (by simp [namesNodup])
          | jnum v2 =>
            simp only [hn] at h
            rw [exceptMap_ok] at h
            rcases h with ⟨st2, hfold, hl⟩
            subst hl
            exact execFold_nodup _ ([], 0) st2 hfold (by simp [namesNodup])
          | jstr s =>
            simp only [hn] at h
            rw [exceptMap_ok] at h
            rcases h with ⟨st2, hfold, hl⟩
            subst hl
            exact execFold_nodup _ ([], 0) st2 hfold (by simp [namesNodup])
          | jobj f2 =>
            simp only [hn] at h
            rw [exceptMap_ok] at h
            rcases h with ⟨st2, hfold, hl⟩
            subst hl
            exact execFold_nodup _ ([], 0) st2 hfold (by simp [namesNodup])
        | none =>
          simp only [hn] at h
          rw [exceptMap_ok] at h
          rcases h with ⟨st2, hfold, hl⟩
          subst hl
          exact execFold_nodup _ ([], 0) st2 hfold (by simp [namesNodup])
      | jbool b =>
        simp only [parseWorkflowData, JVal.getField] at h
        rw [exceptMap_ok] at h
        rcases h with ⟨st2, hfold, hl⟩
        subst hl
        exact execFold_nodup _ ([], 0) st2 hfold (by simp [namesNodup])
      | jnum v =>
        simp only [parseWorkflowData, JVal.getField] at h
        rw [exceptMap_ok] at h
        rcases h with ⟨st2, hfold, hl⟩
        subst hl
        exact execFold_nodup _ ([], 0) st2 hfold (by simp [namesNodup])
      | jstr s =>
        simp only [parseWorkflowData, JVal.getField] at h
        rw [exceptMap_ok] at h
        rcases h with ⟨st2, hfold, hl⟩
        subst hl
        exact execFold_nodup _ ([], 0) st2 hfold (by simp [namesNodup])
      | jarr l2 =>
        simp only [parseWorkflowData, JVal.getField] at h
        rw [exceptMap_ok] at h
        rcases h with ⟨st2, hfold, hl⟩
        subst hl
        exact execFold_nodup _ ([], 0) st2 hfold (by simp [namesNodup])
  · intro st s b hdup
    by_cases hs : s = ""
    · simp [addItem, hs]
    · simp [addItem, hs, hdup]

/-- C7 witness: the sample execution document scans to two items with
distinct rawNames; the duplicate `a.ckpt` value was dropped. -/
theorem parseWorkflowData_rawName_nodup_witness :
  (([⟨0, "Foo", true⟩, ⟨1, "a.ckpt", false⟩] : List ScannedItem).map
    (fun it => it.rawName)).Nodup :=
  parseWorkflowData_rawName_nodup.1 (some sampleExecDoc) _ (by decide)
